import Mathlib

/-!
# Verification of the NEO database core (`python-near-earth-objects`)

A shallow embedding, in Lean 4, of the core of the repository:

* `src/models.py` — the `NearEarthObject` and `CloseApproach` record types;
* `src/database.py` — the `NEODatabase` constructor (index building, the
  NEO/approach join, and the canonical sort), the two lookup methods and the
  streaming `query` method;
* `src/helpers.py` — the fixed `datetime_to_str` timestamp format.

Modelling conventions, used throughout:

* Object identity is represented by position: the input collections are Lean
  lists, and a NEO (resp. approach) is identified by its index into the input
  list.  A `NearEarthObject`'s `approaches` attribute holds approach indices
  and a `CloseApproach`'s `neo` attribute holds an optional NEO index; the
  database's `_approaches` attribute is the (re-ordered) list of approach
  indices.  In-place mutation of the shared Python objects is rendered as
  explicit state passing of the two stores.
* Python `float` values are modelled by `PyFloat`: `float("nan")` is the
  `nan` sentinel and any other float is kept as its canonical decimal text
  (`lit s`), so that Python's `str` coercion is textual.  No claim below
  depends on floating-point arithmetic or on repr quirks.
* Python `dict` (string keys, insertion ordered, last write wins) is modelled
  by an association list with an update-or-append insert.
* Python exceptions from the constructor (the unguarded `a.neo.diameter`
  dereference inside the sort key) are rendered with `Except`.
-/

/-- A Python `float` as the data set uses it: either the `float("nan")`
sentinel or a parsed numeric literal kept as its canonical decimal text.
Python's `str` coercion of such a value is `"nan"`, resp. the text itself. -/
inductive PyFloat where
  | nan : PyFloat
  | lit : String → PyFloat
deriving Repr, DecidableEq, Inhabited

/-- Python `str()` of a modelled float. -/
def pyFloatStr : PyFloat → String
  | .nan => "nan"
  | .lit s => s

/-- Python `str()` of a bool: `"True"` / `"False"`. -/
def pyBoolStr (b : Bool) : String := if b then "True" else "False"

/-- A naive Python `datetime.datetime`.  Python enforces
`1 <= year <= 9999`, `1 <= month <= 12`, `1 <= day <= 31`, `hour <= 23`,
`minute <= 59`, `second <= 59`; `PyDateTime.valid` records those bounds. -/
structure PyDateTime where
  year : Nat
  month : Nat
  day : Nat
  hour : Nat
  minute : Nat
  second : Nat
deriving Repr, DecidableEq, Inhabited

/-- The field bounds Python's `datetime` type itself guarantees. -/
def PyDateTime.valid (dt : PyDateTime) : Prop :=
  1 ≤ dt.year ∧ dt.year ≤ 9999 ∧ 1 ≤ dt.month ∧ dt.month ≤ 12 ∧
  1 ≤ dt.day ∧ dt.day ≤ 31 ∧ dt.hour ≤ 23 ∧ dt.minute ≤ 59 ∧ dt.second ≤ 59

instance (dt : PyDateTime) : Decidable dt.valid := by
  unfold PyDateTime.valid; infer_instance

/-- The decimal digit character for `n % 10`. -/
def digitCh (n : Nat) : Char :=
  match n with
  | 0 => '0' | 1 => '1' | 2 => '2' | 3 => '3' | 4 => '4'
  | 5 => '5' | 6 => '6' | 7 => '7' | 8 => '8' | _ => '9'

/-- The numeric value of a digit character. -/
def chDigit (c : Char) : Nat := c.toNat - 48

/-- Zero-padded two-digit decimal rendering, as `strftime`'s `%m`, `%d`,
`%H` and `%M` produce for their in-range arguments. -/
def pad2 (n : Nat) : String := String.mk [digitCh (n / 10 % 10), digitCh (n % 10)]

/-- Zero-padded four-digit decimal rendering, as `strftime`'s `%Y` is
documented to produce for the years a Python `datetime` can hold. -/
def pad4 (n : Nat) : String :=
  String.mk [digitCh (n / 1000 % 10), digitCh (n / 100 % 10),
             digitCh (n / 10 % 10), digitCh (n % 10)]

/-- The function `helpers.datetime_to_str`: format a naive datetime as
`"%Y-%m-%d %H:%M"` — seconds are dropped. -/
def datetime_to_str (dt : PyDateTime) : String :=
  pad4 dt.year ++ "-" ++ pad2 dt.month ++ "-" ++ pad2 dt.day ++ " " ++
  pad2 dt.hour ++ ":" ++ pad2 dt.minute

/-- Modelled from the spec: the repository has no inverse for
`datetime_to_str` (its `cd_to_datetime` parses NASA's month-name format
instead), but the spec requires the fixed `"%Y-%m-%d %H:%M"` form to be
reversible; this recovery function witnesses that, reading the five
zero-padded fields back out of the 16-character string (seconds are zero). -/
def str_to_datetime (s : String) : Option PyDateTime :=
  match s.data with
  | [y3, y2, y1, y0, c1, m1, m0, c2, d1, d0, c3, h1, h0, c4, n1, n0] =>
    if c1 = '-' ∧ c2 = '-' ∧ c3 = ' ' ∧ c4 = ':' then
      some { year := 1000 * chDigit y3 + 100 * chDigit y2 + 10 * chDigit y1 + chDigit y0
           , month := 10 * chDigit m1 + chDigit m0
           , day := 10 * chDigit d1 + chDigit d0
           , hour := 10 * chDigit h1 + chDigit h0
           , minute := 10 * chDigit n1 + chDigit n0
           , second := 0 }
    else none
  | _ => none

/-- The raw fields of one NEO record, as `models.NearEarthObject.__init__`
reads them from the CSV row mapping (`pdes`, `name`, `diameter`, `pha`).
A CSV row always carries every column; a missing value is the empty string,
which is exactly what Python's truthiness tests in the constructor probe. -/
structure NeoInfo where
  pdes : String
  name : String
  diameter : String
  pha : String
deriving Repr, DecidableEq, Inhabited

/-- The class `models.NearEarthObject`, after construction.  `approaches` holds
approach indices (object identity), empty at construction. -/
structure NearEarthObject where
  designation : String
  name : Option String
  diameter : PyFloat
  hazardous : Bool
  approaches : List Nat
deriving Repr, DecidableEq, Inhabited

/-- The constructor `models.NearEarthObject.__init__`: designation is taken verbatim; the
name defaults to `None` and is only set when the raw name is truthy (non
empty); the diameter defaults to `float("nan")` and is only parsed when the
raw text is truthy; the hazardous flag is `True` for `"Y"`, `False` for
`"N"`, and `False` otherwise. -/
def NearEarthObject.make (info : NeoInfo) : NearEarthObject :=
  { designation := info.pdes
  , name := if info.name = "" then none else some info.name
  , diameter := if info.diameter = "" then PyFloat.nan else PyFloat.lit info.diameter
  , hazardous := if info.pha = "Y" then true else if info.pha = "N" then false else false
  , approaches := [] }

/-- The class `models.CloseApproach`, after construction.  `neo` holds an optional
NEO index (object identity), `None` until the database links it. -/
structure CloseApproach where
  _designation : String
  time : PyDateTime
  distance : PyFloat
  velocity : PyFloat
  neo : Option Nat
deriving Repr, DecidableEq, Inhabited

/-- The property `models.CloseApproach.time_str`: the formatted approach time. -/
def CloseApproach.time_str (a : CloseApproach) : String := datetime_to_str a.time

/-- A Python `dict` with string keys and NEO-index values, modelled as an
insertion-ordered association list. -/
abbrev Dict := List (String × Nat)

/-- Python `d[k] = v`: replace the value at an existing key, else append. -/
def dictInsert (d : Dict) (k : String) (v : Nat) : Dict :=
  if d.any (fun p => p.1 = k) then
    d.map (fun p => if p.1 = k then (k, v) else p)
  else
    d ++ [(k, v)]

/-- Python `k in d`. -/
def dictHasKey (d : Dict) (k : String) : Bool := d.any (fun p => p.1 = k)

/-- Python `d[k]` as an option. -/
def dictGet (d : Dict) (k : String) : Option Nat :=
  match d.find? (fun p => p.1 = k) with
  | some p => some p.2
  | none => none

/-- The filter contract consumed by `NEODatabase.query`.  Modelled from the
spec: `filters.py` is imported by `src/database.py` but absent from the
sources; the spec specifies only the contract the query engine depends on —
a configured comparison value (null = "unset") and a call operation taking a
`CloseApproach` to a boolean. -/
structure AttributeFilter where
  value : Option String
  call : CloseApproach → Bool

/-- The class `NEODatabase`, after construction.  `neos` and `apps` are the two
object stores (the constructor aliases and mutates the supplied objects;
here the mutated stores are returned); `_approaches` is the supplied
approach list, as indices, after the constructor's in-place re-sort. -/
structure NEODatabase where
  neos : List NearEarthObject
  apps : List CloseApproach
  _approaches : List Nat
  _neos_by_name : Dict
  _neos_by_designation : Dict
deriving Repr, DecidableEq, Inhabited

/-- The first constructor loop, which builds the two auxiliary dictionaries
in one pass over the NEOs: a NEO with a truthy (non-empty) name is indexed
under its name, one with a truthy designation under its designation;
`i` numbers the NEOs by input position.  Returns
`(neos_by_name, neos_by_designation)`. -/
def buildIdxGo (i : Nat) (acc : Dict × Dict) : List NearEarthObject → Dict × Dict
  | [] => acc
  | n :: rest =>
    let dn := match n.name with
      | some s => if s = "" then acc.1 else dictInsert acc.1 s i
      | none => acc.1
    let dd := if n.designation = "" then acc.2 else dictInsert acc.2 n.designation i
    buildIdxGo (i + 1) (dn, dd) rest

/-- Both lookup dictionaries for an input NEO collection. -/
def buildIdx (neos : List NearEarthObject) : Dict × Dict := buildIdxGo 0 ([], []) neos

/-- The method `NEODatabase.get_neo_by_designation` on a bare dictionary (the
constructor's link loop calls the method while construction is still in
progress, so the lookup is phrased on the dictionary): if the designation is
a key, return the indexed NEO, else `None`. -/
def lookupDes (d : Dict) (designation : String) : Option Nat :=
  if dictHasKey d designation then dictGet d designation else none

/-- Append approach index `j` to the `approaches` collection of the NEO at
store position `i` (the in-place `neo.approaches.append(approach)`). -/
def appendApproach : List NearEarthObject → Nat → Nat → List NearEarthObject
  | [], _, _ => []
  | n :: rest, 0, j => { n with approaches := n.approaches ++ [j] } :: rest
  | n :: rest, i + 1, j => n :: appendApproach rest i j

/-- The second constructor loop: for each approach, in input order, look its
join key up in the designation dictionary; on a hit, append the approach to
that NEO's `approaches` and set the approach's `neo` reference; on a miss,
leave both untouched.  `j` numbers the approaches by input position; the
function returns the mutated NEO store and approach store. -/
def linkGo (d : Dict) (neos : List NearEarthObject) (j : Nat) :
    List CloseApproach → List NearEarthObject × List CloseApproach
  | [] => (neos, [])
  | a :: rest =>
    match lookupDes d a._designation with
    | some i =>
      let step := linkGo d (appendApproach neos i j) (j + 1) rest
      (step.1, { a with neo := some i } :: step.2)
    | none =>
      let step := linkGo d neos (j + 1) rest
      (step.1, a :: step.2)

/-- The sort key of one approach:
`a.time_str + str(a.distance) + str(a.velocity) + str(a.neo.diameter) + str(a.neo.hazardous)`.
A `None` neo reference makes the key computation fail (Python raises
`AttributeError` there), rendered as `none`. -/
def sortKey (neos : List NearEarthObject) (a : CloseApproach) : Option String :=
  match a.neo with
  | none => none
  | some i =>
    match neos.get? i with
    | none => none
    | some n =>
      some (a.time_str ++ pyFloatStr a.distance ++ pyFloatStr a.velocity ++
            pyFloatStr n.diameter ++ pyBoolStr n.hazardous)

/-- The sort key with a default, used only once every key is known to be
defined (mirroring that Python's `list.sort` first computes every key). -/
def sortKeyD (neos : List NearEarthObject) (apps : List CloseApproach) (j : Nat) : String :=
  (sortKey neos (apps.getD j default)).getD ""

/-- The comparison the canonical sort uses on approach indices: ascending
lexicographic order of the composite string keys (Python compares the `str`
keys). -/
def keyRel (neos : List NearEarthObject) (apps : List CloseApproach) (j1 j2 : Nat) : Prop :=
  sortKeyD neos apps j1 ≤ sortKeyD neos apps j2

instance (neos : List NearEarthObject) (apps : List CloseApproach) :
    DecidableRel (keyRel neos apps) := by
  unfold keyRel; infer_instance

/-- The constructor `NEODatabase.__init__`.  Steps, in source order: alias the two supplied
collections; build the name and designation dictionaries in one pass over
the NEOs; link each approach to its NEO through the designation lookup;
finally — only when the supplied approach collection is a Python `list`
(the `isinstance` test, rendered as the `isList` argument) — sort the
approach collection in place by the composite string key.  Computing the key
of an approach whose `neo` reference is still `None` raises
`AttributeError`, which aborts construction; Python's stable `list.sort` is
rendered as `List.insertionSort` (any two stable sorts of the same key
agree).  Object identity is positional, so the re-sorted `_approaches` list
holds approach indices. -/
def construct (neos : List NearEarthObject) (apps : List CloseApproach) (isList : Bool) :
    Except String NEODatabase :=
  let idx := buildIdx neos
  let linked := linkGo idx.2 neos 0 apps
  let order := List.range linked.2.length
  if isList then
    if linked.2.all (fun a => (sortKey linked.1 a).isSome) then
      Except.ok
        { neos := linked.1, apps := linked.2
        , _approaches := List.insertionSort (keyRel linked.1 linked.2) order
        , _neos_by_name := idx.1, _neos_by_designation := idx.2 }
    else
      Except.error "AttributeError"
  else
    Except.ok
      { neos := linked.1, apps := linked.2, _approaches := order
      , _neos_by_name := idx.1, _neos_by_designation := idx.2 }

/-- The method `NEODatabase.get_neo_by_designation`: exact-match dictionary lookup,
`None` on a miss. -/
def get_neo_by_designation (db : NEODatabase) (designation : String) : Option Nat :=
  if dictHasKey db._neos_by_designation designation then
    dictGet db._neos_by_designation designation
  else none

/-- The method `NEODatabase.get_neo_by_name`: exact-match dictionary lookup, `None` on
a miss.  The argument may be Python's `None` (rendered `none`), which is
never a key of the string-keyed dictionary. -/
def get_neo_by_name (db : NEODatabase) (name : Option String) : Option Nat :=
  match name with
  | none => none
  | some s => if dictHasKey db._neos_by_name s then dictGet db._neos_by_name s else none

/-- The method `NEODatabase.query`, with the generated stream rendered as the list of
yielded approach indices: scan `_approaches` in order and yield every
approach on which all filters whose configured value is not `None` return
true (`all(f(approach) for f in filters if f.value != None)`). -/
def query (db : NEODatabase) (filters : List AttributeFilter) : List Nat :=
  db._approaches.filter (fun j =>
    (filters.filter (fun f => f.value.isSome)).all
      (fun f => f.call (db.apps.getD j default)))

/-- Modelled from the spec: the designation index maps a key to "the NEO
that appears later in the input order (last write wins)" — here, the input
position of the last NEO whose non-empty designation equals `k`, later
entries overriding earlier ones; `i` is the position of the list's head. -/
def lastDesFrom (i : Nat) (k : String) : List NearEarthObject → Option Nat
  | [] => none
  | n :: rest =>
    match lastDesFrom (i + 1) k rest with
    | some v => some v
    | none => if n.designation = k ∧ k ≠ "" then some i else none

/-- Modelled from the spec: the name index maps a key to the input position
of the last NEO whose non-empty name equals `k`, later entries overriding
earlier ones. -/
def lastNameFrom (i : Nat) (k : String) : List NearEarthObject → Option Nat
  | [] => none
  | n :: rest =>
    match lastNameFrom (i + 1) k rest with
    | some v => some v
    | none => if n.name = some k ∧ k ≠ "" then some i else none

/-- The effect of one link-loop iteration on the approach object itself:
on a designation hit the `neo` reference is set, on a miss the approach is
left untouched. -/
def linkApp (d : Dict) (a : CloseApproach) : CloseApproach :=
  match lookupDes d a._designation with
  | some i => { a with neo := some i }
  | none => a

/-- The approach indices, in input order starting at position `j`, whose
designation lookup resolves to the NEO at store position `i` — exactly the
elements the link loop appends to that NEO's `approaches`. -/
def appMatchedFrom (d : Dict) (i : Nat) (j : Nat) : List CloseApproach → List Nat
  | [] => []
  | a :: rest =>
    if lookupDes d a._designation = some i then j :: appMatchedFrom d i (j + 1) rest
    else appMatchedFrom d i (j + 1) rest

instance (neos : List NearEarthObject) (apps : List CloseApproach) :
    IsTotal Nat (keyRel neos apps) :=
  ⟨fun a b => le_total (sortKeyD neos apps a) (sortKeyD neos apps b)⟩

instance (neos : List NearEarthObject) (apps : List CloseApproach) :
    IsTrans Nat (keyRel neos apps) :=
  ⟨fun _ _ _ h1 h2 => le_trans h1 h2⟩

/-- The single NEO of the small concrete input used by several witnesses:
designation `433`, name `Eros`. -/
def neoN : NearEarthObject := ⟨"433", some "Eros", PyFloat.lit "16.84", false, []⟩

/-- The duplicate-designation input for the C8 witness. -/
def dupNeos : List NearEarthObject :=
  [⟨"433", none, PyFloat.nan, false, []⟩, ⟨"433", none, PyFloat.nan, false, []⟩]

/-- The single matched approach of the small concrete inputs: join key
`433`, so it resolves to `neoN`. -/
def appM : CloseApproach :=
  ⟨"433", ⟨2020, 1, 1, 0, 0, 0⟩, PyFloat.lit "0.15", PyFloat.lit "5.0", none⟩

/-- The unmatched approach of the small concrete inputs: join key `999`,
which no NEO carries. -/
def appU : CloseApproach :=
  ⟨"999", ⟨2020, 1, 1, 0, 0, 0⟩, PyFloat.lit "0.15", PyFloat.lit "5.0", none⟩

/-- The database `construct [neoN] [appM] true` evaluates to. -/
def dbM : NEODatabase :=
  ⟨[⟨"433", some "Eros", PyFloat.lit "16.84", false, [0]⟩],
   [⟨"433", ⟨2020, 1, 1, 0, 0, 0⟩, PyFloat.lit "0.15", PyFloat.lit "5.0", some 0⟩],
   [0], [("Eros", 0)], [("433", 0)]⟩

/-- A NEO whose designation is the empty string — falsy in Python, so the
constructor never indexes it. -/
def neoEmpty : NearEarthObject := ⟨"", none, PyFloat.nan, false, []⟩

/-- An approach whose join key is the empty string: it equals
`neoEmpty.designation`, yet the lookup-based join cannot resolve it. -/
def appEmpty : CloseApproach := ⟨"", ⟨2020, 1, 1, 0, 0, 0⟩, PyFloat.nan, PyFloat.nan, none⟩

lemma dictGet_cons (p : String × Nat) (d : Dict) (k : String) :
    dictGet (p :: d) k = if p.1 = k then some p.2 else dictGet d k := by
  by_cases h : p.1 = k <;> simp [dictGet, List.find?_cons, h]

lemma dictHasKey_cons (p : String × Nat) (d : Dict) (k : String) :
    dictHasKey (p :: d) k = (decide (p.1 = k) || dictHasKey d k) := by
  simp [dictHasKey, List.any_cons]

lemma dictHasKey_false_iff (d : Dict) (k : String) :
    dictHasKey d k = false ↔ ∀ q ∈ d, q.1 ≠ k := by
  simp [dictHasKey, List.any_eq_true]

lemma dictGet_eq_none_iff (d : Dict) (k : String) :
    dictGet d k = none ↔ ∀ q ∈ d, q.1 ≠ k := by
  unfold dictGet
  constructor
  · intro h q hq
    cases hfind : List.find? (fun p => decide (p.1 = k)) d with
    | some p => rw [hfind] at h; cases h
    | none =>
      have := List.find?_eq_none.mp hfind q hq
      simpa using this
  · intro h
    have : List.find? (fun p => decide (p.1 = k)) d = none :=
      List.find?_eq_none.mpr (by intro q hq; simpa using h q hq)
    rw [this]

lemma dictGet_map_update (d : Dict) (k k2 : String) (v : Nat) :
    dictGet (d.map (fun q => if q.1 = k then (k, v) else q)) k2 =
      if k2 = k then (if dictHasKey d k then some v else none) else dictGet d k2 := by
  induction d with
  | nil => by_cases h : k2 = k <;> simp [dictGet, dictHasKey, h]
  | cons p rest ih =>
    by_cases hpk : p.1 = k
    · by_cases hk2 : k2 = k
      · subst hk2
        simp [List.map_cons, hpk, dictGet_cons, dictHasKey_cons]
      · have hk2s : ¬k = k2 := fun he => hk2 he.symm
        simp [List.map_cons, hpk, dictGet_cons, dictHasKey_cons, hk2, hk2s, ih]
    · by_cases hk2 : k2 = k
      · subst hk2
        simp [List.map_cons, hpk, dictGet_cons, dictHasKey_cons, ih]
      · by_cases hpk2 : p.1 = k2 <;>
          simp [List.map_cons, hpk, dictGet_cons, dictHasKey_cons, hk2, hpk2, ih]

lemma dictGet_insert (d : Dict) (k k2 : String) (v : Nat) :
    dictGet (dictInsert d k v) k2 = if k2 = k then some v else dictGet d k2 := by
  unfold dictInsert
  by_cases h : d.any (fun p => decide (p.1 = k)) = true
  · rw [if_pos h, dictGet_map_update]
    have : dictHasKey d k = true := h
    rw [this]
    simp
  · rw [if_neg h]
    have hkeys : ∀ q ∈ d, q.1 ≠ k := by
      rw [← dictHasKey_false_iff]
      exact Bool.eq_false_iff.mpr h
    unfold dictGet
    rw [List.find?_append]
    cases hfind : List.find? (fun p => decide (p.1 = k2)) d with
    | some q =>
      have hq := List.find?_some hfind
      have hmem := List.mem_of_find?_eq_some hfind
      have : q.1 = k2 := by simpa using hq
      have hne : ¬(k2 = k) := by
        intro he; exact hkeys q hmem (this.trans he)
      simp [Option.or, hne, dictGet, hfind]
    | none =>
      by_cases hk2 : k2 = k
      · subst hk2
        simp [Option.or, List.find?_cons, dictGet, hfind]
      · have hk2s : ¬k = k2 := fun he => hk2 he.symm
        simp [Option.or, List.find?_cons, hk2, hk2s, dictGet, hfind]

lemma dictInsert_keys_nodup (d : Dict) (k : String) (v : Nat)
    (h : (d.map Prod.fst).Nodup) : ((dictInsert d k v).map Prod.fst).Nodup := by
  unfold dictInsert
  by_cases hany : d.any (fun p => decide (p.1 = k)) = true
  · rw [if_pos hany]
    have : (d.map (fun p => if p.1 = k then (k, v) else p)).map Prod.fst = d.map Prod.fst := by
      rw [List.map_map]
      apply List.map_congr_left
      intro p _
      by_cases hp : p.1 = k <;> simp [hp]
    rw [this]; exact h
  · rw [if_neg hany]
    have hkeys : ∀ q ∈ d, q.1 ≠ k := by
      rw [← dictHasKey_false_iff]
      exact Bool.eq_false_iff.mpr hany
    rw [List.map_append]
    rw [List.nodup_append]
    refine ⟨h, by simp, ?_⟩
    intro x hx
    simp only [List.map_cons, List.map_nil, List.mem_singleton]
    intro hxk
    subst hxk
    rcases List.mem_map.mp hx with ⟨q, hq, hq1⟩
    exact hkeys q hq hq1

lemma buildIdxGo_snd_get (rest : List NearEarthObject) :
    ∀ (i : Nat) (acc : Dict × Dict) (k : String),
      dictGet (buildIdxGo i acc rest).2 k =
        match lastDesFrom i k rest with
        | some v => some v
        | none => dictGet acc.2 k := by
  induction rest with
  | nil => intro i acc k; simp [buildIdxGo, lastDesFrom]
  | cons n rest ih =>
    intro i acc k
    rw [buildIdxGo, lastDesFrom, ih]
    cases hrec : lastDesFrom (i + 1) k rest with
    | some v => simp
    | none =>
      simp only []
      by_cases hd : n.designation = ""
      · have hfalse : ¬("" = k ∧ ¬k = "") := by
          rintro ⟨h1, h2⟩; exact h2 h1.symm
        simp [hd, hfalse]
      · rw [if_neg hd]
        rw [dictGet_insert]
        by_cases hk : k = n.designation
        · subst hk
          simp [hd]
        · have hks : ¬(n.designation = k) := fun he => hk he.symm
          simp [hk, hks]

lemma buildIdxGo_fst_get (rest : List NearEarthObject) :
    ∀ (i : Nat) (acc : Dict × Dict) (k : String),
      dictGet (buildIdxGo i acc rest).1 k =
        match lastNameFrom i k rest with
        | some v => some v
        | none => dictGet acc.1 k := by
  induction rest with
  | nil => intro i acc k; simp [buildIdxGo, lastNameFrom]
  | cons n rest ih =>
    intro i acc k
    rw [buildIdxGo, lastNameFrom, ih]
    cases hrec : lastNameFrom (i + 1) k rest with
    | some v => simp
    | none =>
      simp only []
      cases hn : n.name with
      | none => simp [hn]
      | some s =>
        by_cases hs : s = ""
        · subst hs
          have hfalse : ¬("" = k ∧ ¬k = "") := by
            rintro ⟨h1, h2⟩; exact h2 h1.symm
          simp [hn, hfalse]
        · by_cases hk : k = s
          · subst hk
            simp [hs, dictGet_insert]
          · have hks : ¬(some s = some k) := by
              intro he; exact hk (Option.some.inj he).symm
            simp [hs, dictGet_insert, hk, hks]

lemma dictGet_buildIdx_des (neos : List NearEarthObject) (k : String) :
    dictGet (buildIdx neos).2 k = lastDesFrom 0 k neos := by
  rw [buildIdx, buildIdxGo_snd_get]
  cases h : lastDesFrom 0 k neos <;> simp [dictGet]

lemma dictGet_buildIdx_name (neos : List NearEarthObject) (k : String) :
    dictGet (buildIdx neos).1 k = lastNameFrom 0 k neos := by
  rw [buildIdx, buildIdxGo_fst_get]
  cases h : lastNameFrom 0 k neos <;> simp [dictGet]

lemma buildIdxGo_keys_nodup (rest : List NearEarthObject) :
    ∀ (i : Nat) (acc : Dict × Dict),
      ((acc.1.map Prod.fst).Nodup ∧ (acc.2.map Prod.fst).Nodup) →
      (((buildIdxGo i acc rest).1.map Prod.fst).Nodup ∧
       ((buildIdxGo i acc rest).2.map Prod.fst).Nodup) := by
  induction rest with
  | nil => intro i acc h; exact h
  | cons n rest ih =>
    intro i acc h
    rw [buildIdxGo]
    apply ih
    constructor
    · cases hn : n.name with
      | none => exact h.1
      | some s =>
        by_cases hs : s = ""
        · simp only [hs, if_pos rfl]; exact h.1
        · simp only [if_neg hs]; exact dictInsert_keys_nodup _ _ _ h.1
    · by_cases hd : n.designation = ""
      · simp only [if_pos hd]; exact h.2
      · simp only [if_neg hd]; exact dictInsert_keys_nodup _ _ _ h.2

lemma lastDesFrom_some (l : List NearEarthObject) :
    ∀ (i : Nat) (k : String) (v : Nat), lastDesFrom i k l = some v →
      i ≤ v ∧ ∃ n, l.get? (v - i) = some n ∧ n.designation = k ∧ k ≠ "" := by
  induction l with
  | nil => intro i k v h; cases h
  | cons n rest ih =>
    intro i k v h
    rw [lastDesFrom] at h
    cases hrec : lastDesFrom (i + 1) k rest with
    | some w =>
      rw [hrec] at h
      have hwv : w = v := by simpa using h
      rcases ih (i + 1) k w hrec with ⟨hle, m, hm, hdes, hk⟩
      refine ⟨by omega, m, ?_, hdes, hk⟩
      have hstep : v - i = (w - (i + 1)) + 1 := by omega
      rw [hstep]
      simpa using hm
    | none =>
      rw [hrec] at h
      by_cases hc : n.designation = k ∧ k ≠ ""
      · rw [if_pos hc] at h
        cases h
        exact ⟨le_refl _, n, by simp, hc.1, hc.2⟩
      · rw [if_neg hc] at h; cases h

lemma lastDesFrom_isSome_of_match (l : List NearEarthObject) :
    ∀ (i t : Nat) (n : NearEarthObject) (k : String),
      l.get? t = some n → n.designation = k → k ≠ "" →
      (lastDesFrom i k l).isSome = true := by
  induction l with
  | nil => intro i t n k h; cases h
  | cons m rest ih =>
    intro i t n k hget hdes hk
    rw [lastDesFrom]
    cases t with
    | zero =>
      simp at hget
      subst hget
      cases hrec : lastDesFrom (i + 1) k rest with
      | some w => simp
      | none => simp [hdes, hk]
    | succ t =>
      simp only [List.get?] at hget
      have := ih (i + 1) t n k hget hdes hk
      cases hrec : lastDesFrom (i + 1) k rest with
      | some w => simp
      | none => rw [hrec] at this; cases this

lemma lastNameFrom_some (l : List NearEarthObject) :
    ∀ (i : Nat) (k : String) (v : Nat), lastNameFrom i k l = some v →
      i ≤ v ∧ ∃ n, l.get? (v - i) = some n ∧ n.name = some k ∧ k ≠ "" := by
  induction l with
  | nil => intro i k v h; cases h
  | cons n rest ih =>
    intro i k v h
    rw [lastNameFrom] at h
    cases hrec : lastNameFrom (i + 1) k rest with
    | some w =>
      rw [hrec] at h
      have hwv : w = v := by simpa using h
      rcases ih (i + 1) k w hrec with ⟨hle, m, hm, hname, hk⟩
      refine ⟨by omega, m, ?_, hname, hk⟩
      have hstep : v - i = (w - (i + 1)) + 1 := by omega
      rw [hstep]
      simpa using hm
    | none =>
      rw [hrec] at h
      by_cases hc : n.name = some k ∧ k ≠ ""
      · rw [if_pos hc] at h
        cases h
        exact ⟨le_refl _, n, by simp, hc.1, hc.2⟩
      · rw [if_neg hc] at h; cases h

lemma lastNameFrom_isSome_of_match (l : List NearEarthObject) :
    ∀ (i t : Nat) (n : NearEarthObject) (k : String),
      l.get? t = some n → n.name = some k → k ≠ "" →
      (lastNameFrom i k l).isSome = true := by
  induction l with
  | nil => intro i t n k h; cases h
  | cons m rest ih =>
    intro i t n k hget hname hk
    rw [lastNameFrom]
    cases t with
    | zero =>
      simp at hget
      subst hget
      cases hrec : lastNameFrom (i + 1) k rest with
      | some w => simp
      | none => simp [hname, hk]
    | succ t =>
      simp only [List.get?] at hget
      have := ih (i + 1) t n k hget hname hk
      cases hrec : lastNameFrom (i + 1) k rest with
      | some w => simp
      | none => rw [hrec] at this; cases this

lemma lastNameFrom_empty (l : List NearEarthObject) :
    ∀ (i : Nat), lastNameFrom i "" l = none := by
  induction l with
  | nil => intro i; rfl
  | cons n rest ih =>
    intro i
    rw [lastNameFrom, ih]
    simp

lemma appendApproach_length (l : List NearEarthObject) :
    ∀ (i j : Nat), (appendApproach l i j).length = l.length := by
  induction l with
  | nil => intro i j; rfl
  | cons n rest ih =>
    intro i j
    cases i with
    | zero => rfl
    | succ i => simp [appendApproach, ih]

lemma appendApproach_get? (l : List NearEarthObject) :
    ∀ (i j t : Nat), (appendApproach l i j).get? t =
      if t = i then (l.get? t).map (fun n => { n with approaches := n.approaches ++ [j] })
      else l.get? t := by
  induction l with
  | nil =>
    intro i j t
    cases t <;> cases i <;> simp [appendApproach]
  | cons n rest ih =>
    intro i j t
    cases i with
    | zero =>
      cases t with
      | zero => simp [appendApproach]
      | succ t => simp [appendApproach]
    | succ i =>
      cases t with
      | zero => simp [appendApproach]
      | succ t =>
        simp only [appendApproach, List.get?]
        rw [ih]
        by_cases h : t = i
        · simp [h]
        · simp [h, fun hc => h (Nat.succ_injective hc)]

lemma linkGo_snd (apps : List CloseApproach) :
    ∀ (d : Dict) (neos : List NearEarthObject) (j : Nat),
      (linkGo d neos j apps).2 = apps.map (linkApp d) := by
  induction apps with
  | nil => intro d neos j; rfl
  | cons a rest ih =>
    intro d neos j
    rw [linkGo]
    cases h : lookupDes d a._designation with
    | some i => simp [h, ih, linkApp]
    | none => simp [h, ih, linkApp]

lemma linkGo_fst_length (apps : List CloseApproach) :
    ∀ (d : Dict) (neos : List NearEarthObject) (j : Nat),
      (linkGo d neos j apps).1.length = neos.length := by
  induction apps with
  | nil => intro d neos j; rfl
  | cons a rest ih =>
    intro d neos j
    rw [linkGo]
    cases h : lookupDes d a._designation with
    | some i => simp [ih, appendApproach_length]
    | none => simp [ih]

lemma linkGo_fst_get? (apps : List CloseApproach) :
    ∀ (d : Dict) (neos : List NearEarthObject) (j t : Nat),
      (linkGo d neos j apps).1.get? t =
        (neos.get? t).map
          (fun n => { n with approaches := n.approaches ++ appMatchedFrom d t j apps }) := by
  induction apps with
  | nil =>
    intro d neos j t
    show neos.get? t = (neos.get? t).map
      (fun n => { n with approaches := n.approaches ++ appMatchedFrom d t j [] })
    cases h : neos.get? t with
    | none => rfl
    | some n => simp [appMatchedFrom]
  | cons a rest ih =>
    intro d neos j t
    rw [linkGo]
    cases h : lookupDes d a._designation with
    | some i =>
      simp only []
      rw [ih, appendApproach_get?]
      by_cases ht : t = i
      · subst ht
        rw [if_pos rfl, Option.map_map]
        rw [appMatchedFrom, h, if_pos rfl]
        cases hn : neos.get? t <;> simp [Function.comp]
      · rw [if_neg ht]
        rw [appMatchedFrom, h]
        have : ¬(some i = some t) := by
          intro hc; exact ht (Option.some.inj hc).symm
        rw [if_neg this]
    | none =>
      simp only []
      rw [ih]
      rw [appMatchedFrom, h]
      have : ¬((none : Option Nat) = some t) := by simp
      rw [if_neg this]

lemma appMatchedFrom_mem (apps : List CloseApproach) :
    ∀ (d : Dict) (i j t : Nat) (a : CloseApproach),
      apps.get? t = some a → lookupDes d a._designation = some i →
      (j + t) ∈ appMatchedFrom d i j apps := by
  induction apps with
  | nil => intro d i j t a h; cases h
  | cons b rest ih =>
    intro d i j t a hget hlook
    cases t with
    | zero =>
      simp at hget
      subst hget
      rw [appMatchedFrom, hlook]
      simp
    | succ t =>
      simp only [List.get?] at hget
      have := ih d i (j + 1) t a hget hlook
      rw [appMatchedFrom]
      by_cases hb : lookupDes d b._designation = some i
      · rw [if_pos hb]
        have harith : j + (t + 1) = (j + 1) + t := by omega
        rw [harith]
        exact List.mem_cons_of_mem _ this
      · rw [if_neg hb]
        have harith : j + (t + 1) = (j + 1) + t := by omega
        rw [harith]
        exact this

lemma lookupDes_eq_dictGet (d : Dict) (k : String) : lookupDes d k = dictGet d k := by
  unfold lookupDes
  by_cases h : dictHasKey d k = true
  · rw [if_pos h]
  · rw [if_neg (by simpa using h)]
    have : dictGet d k = none :=
      (dictGet_eq_none_iff d k).mpr ((dictHasKey_false_iff d k).mp (Bool.eq_false_iff.mpr h))
    rw [this]

lemma query_nil (db : NEODatabase) : query db [] = db._approaches := by
  simp [query]

lemma construct_ok (neos : List NearEarthObject) (apps : List CloseApproach) (isList : Bool)
    (db : NEODatabase) (h : construct neos apps isList = Except.ok db) :
    db.neos = (linkGo (buildIdx neos).2 neos 0 apps).1 ∧
    db.apps = apps.map (linkApp (buildIdx neos).2) ∧
    db._neos_by_name = (buildIdx neos).1 ∧
    db._neos_by_designation = (buildIdx neos).2 ∧
    db._approaches.Perm (List.range apps.length) ∧
    (isList = false → db._approaches = List.range apps.length) ∧
    (isList = true → ∀ a ∈ db.apps, (sortKey db.neos a).isSome = true) ∧
    (isList = true → db._approaches =
      List.insertionSort (keyRel db.neos db.apps) (List.range apps.length)) := by
  unfold construct at h
  have hlen : (linkGo (buildIdx neos).2 neos 0 apps).2.length = apps.length := by
    rw [linkGo_snd, List.length_map]
  cases isList with
  | false =>
    simp only [Bool.false_eq_true, if_false] at h
    rw [Except.ok.injEq] at h
    subst h
    refine ⟨rfl, by rw [← linkGo_snd], rfl, rfl, ?_, ?_, ?_, ?_⟩
    · simp only [hlen]
      exact List.Perm.refl _
    · intro _; simp only [hlen]
    · intro hc; cases hc
    · intro hc; cases hc
  | true =>
    simp only [if_true] at h
    by_cases hall :
        (linkGo (buildIdx neos).2 neos 0 apps).2.all
          (fun a => (sortKey (linkGo (buildIdx neos).2 neos 0 apps).1 a).isSome) = true
    · rw [if_pos hall, Except.ok.injEq] at h
      subst h
      refine ⟨rfl, by rw [← linkGo_snd], rfl, rfl, ?_, ?_, ?_, ?_⟩
      · simp only [hlen]
        exact (List.perm_insertionSort _ _)
      · intro hc; cases hc
      · intro _
        intro a ha
        have ha2 : a ∈ (linkGo (buildIdx neos).2 neos 0 apps).2 := by
          rw [linkGo_snd] at ha ⊢
          exact ha
        exact List.all_eq_true.mp hall a ha2
      · intro _
        simp only [hlen]
    · rw [if_neg hall] at h
      cases h

lemma chDigit_digitCh (k : Nat) (h : k < 10) : chDigit (digitCh k) = k := by
  interval_cases k <;> rfl

lemma isDigit_digitCh (n : Nat) : (digitCh n).isDigit = true := by
  unfold digitCh
  split <;> decide

lemma datetime_to_str_data (dt : PyDateTime) :
    (datetime_to_str dt).data =
      [digitCh (dt.year / 1000 % 10), digitCh (dt.year / 100 % 10),
       digitCh (dt.year / 10 % 10), digitCh (dt.year % 10), '-',
       digitCh (dt.month / 10 % 10), digitCh (dt.month % 10), '-',
       digitCh (dt.day / 10 % 10), digitCh (dt.day % 10), ' ',
       digitCh (dt.hour / 10 % 10), digitCh (dt.hour % 10), ':',
       digitCh (dt.minute / 10 % 10), digitCh (dt.minute % 10)] := rfl

lemma str_to_datetime_roundtrip (dt : PyDateTime) (h : dt.valid) (hs : dt.second = 0) :
    str_to_datetime (datetime_to_str dt) = some dt := by
  obtain ⟨y, mo, d, hr, mi, s⟩ := dt
  obtain ⟨h1, h2, h3, h4, h5, h6, h7, h8, h9⟩ := h
  simp only at hs
  subst hs
  have hc : ∀ x : Nat, chDigit (digitCh (x % 10)) = x % 10 := fun x =>
    chDigit_digitCh _ (Nat.mod_lt _ (by omega))
  unfold str_to_datetime
  rw [datetime_to_str_data]
  simp only [hc]
  rw [if_pos (by simp)]
  simp only [Option.some.injEq, PyDateTime.mk.injEq]
  simp only at h1 h2 h3 h4 h5 h6 h7 h8
  refine ⟨by omega, by omega, by omega, by omega, by omega, by trivial⟩

/-- C3: `query()` with no filters yields exactly the database's full
approach collection — the same length, the same element objects (identity
is positional), in the database's canonical order, with no approach
omitted or duplicated. -/
theorem C3_query_no_filters (db : NEODatabase) : query db [] = db._approaches :=
  query_nil db

/-- C4: a filter whose configured value is the null sentinel is skipped
without being invoked: `query` over a filter list containing it yields
exactly `query` with that filter removed, whatever its call operation is —
so the unset filter behaves as always-true and its call operation can never
influence (hence never be invoked on) any approach. -/
theorem C4_unset_filter_skipped (db : NEODatabase) (fs1 fs2 : List AttributeFilter)
    (f : AttributeFilter) (h : f.value = none) :
    query db (fs1 ++ f :: fs2) = query db (fs1 ++ fs2) := by
  unfold query
  have hfil : (fs1 ++ f :: fs2).filter (fun g => g.value.isSome) =
      (fs1 ++ fs2).filter (fun g => g.value.isSome) := by
    simp [List.filter_append, List.filter_cons, h]
  rw [hfil]

/-- Witness for C4: a one-approach database and a concrete unset filter. -/
theorem C4_witness :
    query ⟨[], [⟨"1", ⟨2020, 1, 1, 0, 0, 0⟩, PyFloat.nan, PyFloat.nan, none⟩], [0], [], []⟩
        [{ value := none, call := fun _ => false }] =
      query ⟨[], [⟨"1", ⟨2020, 1, 1, 0, 0, 0⟩, PyFloat.nan, PyFloat.nan, none⟩], [0], [], []⟩
        [] :=
  C4_unset_filter_skipped _ [] [] { value := none, call := fun _ => false } rfl

/-- C6: constructing a `NearEarthObject` from a record with missing (empty)
name, diameter or hazardous flag raises nothing; the name resolves to the
null sentinel and is never the empty string, the diameter resolves to the
NaN sentinel, and the hazardous flag resolves to false for any raw value
other than the explicit affirmative marker `"Y"`. -/
theorem C6_neo_sentinels (info : NeoInfo) :
    (NearEarthObject.make info).name ≠ some "" ∧
    (info.name = "" → (NearEarthObject.make info).name = none) ∧
    (info.diameter = "" → (NearEarthObject.make info).diameter = PyFloat.nan) ∧
    (info.pha ≠ "Y" → (NearEarthObject.make info).hazardous = false) := by
  refine ⟨?_, ?_, ?_, ?_⟩
  · unfold NearEarthObject.make
    by_cases h : info.name = "" <;> simp [h]
  · intro h; simp [NearEarthObject.make, h]
  · intro h; simp [NearEarthObject.make, h]
  · intro h
    unfold NearEarthObject.make
    simp only [if_neg h]
    by_cases h2 : info.pha = "N" <;> simp [h2]

/-- Witness for C6 at a record with empty name, empty diameter and an
unrecognized hazardous flag. -/
theorem C6_witness :
    (NearEarthObject.make ⟨"433", "", "", "X"⟩).name = none ∧
    (NearEarthObject.make ⟨"433", "", "", "X"⟩).diameter = PyFloat.nan ∧
    (NearEarthObject.make ⟨"433", "", "", "X"⟩).hazardous = false :=
  ⟨(C6_neo_sentinels ⟨"433", "", "", "X"⟩).2.1 rfl,
   (C6_neo_sentinels ⟨"433", "", "", "X"⟩).2.2.1 rfl,
   (C6_neo_sentinels ⟨"433", "", "", "X"⟩).2.2.2 (by decide)⟩

/-- C9: the timestamp string form is a pure function of the timestamp whose
shape is always a 4-digit year, a dash, a 2-digit month, a dash, a 2-digit
day, a space, a 2-digit hour, a colon and a 2-digit minute — 16 characters,
no seconds — and it is reversible: the recovery function reads the
timestamp back, so two distinct zero-second timestamps never share a
string form. -/
theorem C9_datetime_format (dt dt2 : PyDateTime)
    (h : dt.valid) (h2 : dt2.valid) (hs : dt.second = 0) (hs2 : dt2.second = 0) :
    str_to_datetime (datetime_to_str dt) = some dt ∧
    (datetime_to_str dt = datetime_to_str dt2 → dt = dt2) ∧
    (datetime_to_str dt).length = 16 ∧
    (datetime_to_str dt).data.get? 4 = some '-' ∧
    (datetime_to_str dt).data.get? 7 = some '-' ∧
    (datetime_to_str dt).data.get? 10 = some ' ' ∧
    (datetime_to_str dt).data.get? 13 = some ':' ∧
    (∀ t, t ∈ ([0, 1, 2, 3, 5, 6, 8, 9, 11, 12, 14, 15] : List Nat) →
      ∃ c, (datetime_to_str dt).data.get? t = some c ∧ c.isDigit = true) := by
  refine ⟨str_to_datetime_roundtrip dt h hs, ?_, ?_, ?_, ?_, ?_, ?_, ?_⟩
  · intro he
    have r1 := str_to_datetime_roundtrip dt h hs
    have r2 := str_to_datetime_roundtrip dt2 h2 hs2
    rw [he, r2] at r1
    exact (Option.some.inj r1).symm
  · show (datetime_to_str dt).data.length = 16
    rw [datetime_to_str_data]; rfl
  · rw [datetime_to_str_data]; rfl
  · rw [datetime_to_str_data]; rfl
  · rw [datetime_to_str_data]; rfl
  · rw [datetime_to_str_data]; rfl
  · intro t ht
    fin_cases ht <;>
      exact ⟨_, by rw [datetime_to_str_data]; rfl, isDigit_digitCh _⟩

/-- Witness for C9 at the documented example timestamp
`2020-Dec-31 12:00`. -/
theorem C9_witness :
    str_to_datetime (datetime_to_str ⟨2020, 12, 31, 12, 0, 0⟩) =
        some ⟨2020, 12, 31, 12, 0, 0⟩ ∧
    (datetime_to_str ⟨2020, 12, 31, 12, 0, 0⟩).length = 16 :=
  ⟨(C9_datetime_format ⟨2020, 12, 31, 12, 0, 0⟩ ⟨2020, 12, 31, 12, 0, 0⟩
      (by decide) (by decide) rfl rfl).1,
   (C9_datetime_format ⟨2020, 12, 31, 12, 0, 0⟩ ⟨2020, 12, 31, 12, 0, 0⟩
      (by decide) (by decide) rfl rfl).2.2.1⟩

/-- C7: both lookups are exact-match and return the null sentinel on a
miss, never raising; a hit under a designation or name key really is a NEO
carrying that designation / name, a key carried by no NEO yields `none`,
and the `None` and empty-string name arguments always yield `none` because
no NEO is ever indexed under them. -/
theorem C7_lookup_misses (neos : List NearEarthObject) (apps : List CloseApproach)
    (isList : Bool) (db : NEODatabase) (h : construct neos apps isList = Except.ok db) :
    (∀ k i, get_neo_by_designation db k = some i →
       ∃ n, db.neos.get? i = some n ∧ n.designation = k) ∧
    (∀ k, (∀ n ∈ db.neos, n.designation ≠ k) → get_neo_by_designation db k = none) ∧
    (∀ s i, get_neo_by_name db (some s) = some i →
       ∃ n, db.neos.get? i = some n ∧ n.name = some s) ∧
    (∀ s, (∀ n ∈ db.neos, n.name ≠ some s) → get_neo_by_name db (some s) = none) ∧
    get_neo_by_name db none = none ∧
    get_neo_by_name db (some "") = none := by
  obtain ⟨hneos, happs, hname, hdes, -, -, -, -⟩ := construct_ok neos apps isList db h
  have hgd : ∀ k, get_neo_by_designation db k = dictGet (buildIdx neos).2 k := by
    intro k
    show lookupDes db._neos_by_designation k = _
    rw [lookupDes_eq_dictGet, hdes]
  have hgn : ∀ s, get_neo_by_name db (some s) = dictGet (buildIdx neos).1 s := by
    intro s
    show (if dictHasKey db._neos_by_name s then dictGet db._neos_by_name s else none) = _
    rw [show (if dictHasKey db._neos_by_name s then dictGet db._neos_by_name s else none) =
         lookupDes db._neos_by_name s from rfl, lookupDes_eq_dictGet, hname]
  have hdesMatch : ∀ k i, get_neo_by_designation db k = some i →
      ∃ n, db.neos.get? i = some n ∧ n.designation = k := by
    intro k i hk
    rw [hgd, dictGet_buildIdx_des] at hk
    rcases lastDesFrom_some neos 0 k i hk with ⟨-, n0, hn0, hd0, -⟩
    rw [Nat.sub_zero] at hn0
    refine ⟨{ n0 with
        approaches := n0.approaches ++ appMatchedFrom (buildIdx neos).2 i 0 apps }, ?_, hd0⟩
    rw [hneos, linkGo_fst_get?, hn0]
    rfl
  have hnameMatch : ∀ s i, get_neo_by_name db (some s) = some i →
      ∃ n, db.neos.get? i = some n ∧ n.name = some s := by
    intro s i hk
    rw [hgn, dictGet_buildIdx_name] at hk
    rcases lastNameFrom_some neos 0 s i hk with ⟨-, n0, hn0, hd0, -⟩
    rw [Nat.sub_zero] at hn0
    refine ⟨{ n0 with
        approaches := n0.approaches ++ appMatchedFrom (buildIdx neos).2 i 0 apps }, ?_, hd0⟩
    rw [hneos, linkGo_fst_get?, hn0]
    rfl
  refine ⟨hdesMatch, ?_, hnameMatch, ?_, rfl, ?_⟩
  · intro k hk
    cases hg : get_neo_by_designation db k with
    | none => rfl
    | some i =>
      rcases hdesMatch k i hg with ⟨n, hn, hd⟩
      exact absurd hd (hk n (List.get?_mem hn))
  · intro s hk
    cases hg : get_neo_by_name db (some s) with
    | none => rfl
    | some i =>
      rcases hnameMatch s i hg with ⟨n, hn, hd⟩
      exact absurd hd (hk n (List.get?_mem hn))
  · rw [hgn, dictGet_buildIdx_name]
    exact lastNameFrom_empty neos 0

/-- Witness for C7 on a one-NEO database: the `None` and empty-string name
lookups miss, and so does an absent designation. -/
theorem C7_witness :
    get_neo_by_name ⟨[neoN], [], [], [("Eros", 0)], [("433", 0)]⟩ none = none ∧
    get_neo_by_name ⟨[neoN], [], [], [("Eros", 0)], [("433", 0)]⟩ (some "") = none ∧
    get_neo_by_designation ⟨[neoN], [], [], [("Eros", 0)], [("433", 0)]⟩ "99942" = none :=
  ⟨(C7_lookup_misses [neoN] [] true _ rfl).2.2.2.2.1,
   (C7_lookup_misses [neoN] [] true _ rfl).2.2.2.2.2,
   (C7_lookup_misses [neoN] [] true _ rfl).2.1 "99942" (by decide)⟩

/-- C8: duplicate designations (or names) among the input NEOs surface no
error — index building is total — and each index holds at most one entry
per key, mapping it to the last input NEO carrying that key (last write
wins). -/
theorem C8_last_write_wins :
    (∀ (neos : List NearEarthObject) (apps : List CloseApproach) (isList : Bool)
       (db : NEODatabase), construct neos apps isList = Except.ok db →
       (∀ k, dictGet db._neos_by_designation k = lastDesFrom 0 k neos) ∧
       (∀ k, dictGet db._neos_by_name k = lastNameFrom 0 k neos) ∧
       (db._neos_by_designation.map Prod.fst).Nodup ∧
       (db._neos_by_name.map Prod.fst).Nodup) ∧
    (∀ (neos : List NearEarthObject) (isList : Bool),
       ∃ db, construct neos [] isList = Except.ok db) := by
  constructor
  · intro neos apps isList db h
    obtain ⟨-, -, hname, hdes, -, -, -, -⟩ := construct_ok neos apps isList db h
    have hnodup := buildIdxGo_keys_nodup neos 0 ([], []) ⟨List.nodup_nil, List.nodup_nil⟩
    refine ⟨?_, ?_, ?_, ?_⟩
    · intro k; rw [hdes, dictGet_buildIdx_des]
    · intro k; rw [hname, dictGet_buildIdx_name]
    · rw [hdes]; exact hnodup.2
    · rw [hname]; exact hnodup.1
  · intro neos isList
    cases isList
    · exact ⟨_, rfl⟩
    · exact ⟨_, rfl⟩

/-- Witness for C8: with two NEOs sharing designation `433`, construction
succeeds and the designation index maps `433` to the later NEO (index 1). -/
theorem C8_witness :
    dictGet (⟨dupNeos, [], [], [], [("433", 1)]⟩ : NEODatabase)._neos_by_designation "433" =
      lastDesFrom 0 "433" dupNeos ∧
    lastDesFrom 0 "433" dupNeos = some 1 :=
  ⟨(C8_last_write_wins.1 dupNeos [] false ⟨dupNeos, [], [], [], [("433", 1)]⟩ rfl).1 "433",
   by decide⟩

lemma linkApp_fields (d : Dict) (a : CloseApproach) :
    (linkApp d a)._designation = a._designation ∧ (linkApp d a).time = a.time ∧
    (linkApp d a).distance = a.distance ∧ (linkApp d a).velocity = a.velocity ∧
    (linkApp d a).neo = (match lookupDes d a._designation with
      | some i => some i
      | none => a.neo) := by
  cases hl : lookupDes d a._designation <;> simp [linkApp, hl]

lemma linkApp_miss (d : Dict) (a : CloseApproach)
    (h : lookupDes d a._designation = none) : linkApp d a = a := by
  unfold linkApp
  rw [h]

lemma linkApp_hit (d : Dict) (a : CloseApproach) (i : Nat)
    (h : lookupDes d a._designation = some i) : linkApp d a = { a with neo := some i } := by
  unfold linkApp
  rw [h]

lemma construct_error (neos : List NearEarthObject) (apps : List CloseApproach) (e : String)
    (h : construct neos apps true = Except.error e) :
    (linkGo (buildIdx neos).2 neos 0 apps).2.all
      (fun a => (sortKey (linkGo (buildIdx neos).2 neos 0 apps).1 a).isSome) = false := by
  unfold construct at h
  simp only [if_true] at h
  by_cases hall :
      (linkGo (buildIdx neos).2 neos 0 apps).2.all
        (fun a => (sortKey (linkGo (buildIdx neos).2 neos 0 apps).1 a).isSome) = true
  · rw [if_pos hall] at h
    cases h
  · exact Bool.eq_false_iff.mpr hall

lemma sortKey_isSome_of_hit (neos : List NearEarthObject) (apps : List CloseApproach)
    (a : CloseApproach) (i : Nat)
    (hi : lookupDes (buildIdx neos).2 a._designation = some i) :
    (sortKey (linkGo (buildIdx neos).2 neos 0 apps).1 (linkApp (buildIdx neos).2 a)).isSome =
      true := by
  have hi2 := hi
  rw [lookupDes_eq_dictGet, dictGet_buildIdx_des] at hi2
  rcases lastDesFrom_some neos 0 _ i hi2 with ⟨-, n0, hn0, -, -⟩
  rw [Nat.sub_zero] at hn0
  rw [linkApp_hit _ _ _ hi]
  unfold sortKey
  simp only []
  rw [linkGo_fst_get?, hn0]
  simp

lemma get?_lt_length {α : Type} {l : List α} {j : Nat} {a : α}
    (h : l.get? j = some a) : j < l.length := by
  by_contra hc
  have h0 : l.get? j = none := List.get?_eq_none.mpr (Nat.le_of_not_lt hc)
  rw [h0] at h
  cases h

/-- C2 (with the precondition read as the spec words it — every approach's
join key resolves in the designation index): the constructor completes and
fully re-sorts the approach collection into ascending order of the
composite string key `time_str + str(distance) + str(velocity) +
str(neo.diameter) + str(neo.hazardous)` — the result is a permutation of
the whole input collection, pairwise sorted by that key. -/
theorem C2_canonical_sort (neos : List NearEarthObject) (apps : List CloseApproach)
    (hall : ∀ a ∈ apps, (lookupDes (buildIdx neos).2 a._designation).isSome = true) :
    ∃ db, construct neos apps true = Except.ok db ∧
      db._approaches.Perm (List.range apps.length) ∧
      List.Sorted (keyRel db.neos db.apps) db._approaches := by
  cases hc : construct neos apps true with
  | error e =>
    exfalso
    have hfalse := construct_error neos apps e hc
    rw [List.all_eq_false] at hfalse
    rcases hfalse with ⟨a', ha', hnot⟩
    rw [linkGo_snd] at ha'
    rcases List.mem_map.mp ha' with ⟨a, ha, rfl⟩
    rcases Option.isSome_iff_exists.mp (hall a ha) with ⟨i, hi⟩
    exact hnot (sortKey_isSome_of_hit neos apps a i hi)
  | ok db =>
    obtain ⟨-, -, -, -, hperm, -, -, hsort⟩ := construct_ok neos apps true db hc
    refine ⟨db, rfl, hperm, ?_⟩
    rw [hsort rfl]
    exact List.sorted_insertionSort _ _

/-- Witness for C2: one NEO, one matched approach; construction sorts the
singleton collection. -/
theorem C2_witness :
    ∃ db, construct [neoN] [appM] true = Except.ok db ∧
      db._approaches.Perm (List.range ([appM] : List CloseApproach).length) ∧
      List.Sorted (keyRel db.neos db.apps) db._approaches :=
  C2_canonical_sort [neoN] [appM] (by decide)

/-- C1 (amended: an approach can only be linked to a NEO with a truthy,
that is non-empty, designation — NEOs with an empty designation are never
indexed, so a key equal to such a designation stays unlinked): whenever the
constructor completes on unlinked inputs, every approach whose join key
equals the non-empty designation of some input NEO has its `neo` reference
set to the index entry for that key and appears in that NEO's `approaches`,
each NEO's `approaches` lists exactly its matched approaches in first-seen
input order, and every unmatched approach keeps its null `neo` reference
and still appears in the database's approach collection, which holds every
input approach exactly (membership ↔ being an input position). -/
theorem C1_link_postcondition (neos : List NearEarthObject) (apps : List CloseApproach)
    (isList : Bool) (db : NEODatabase)
    (hinit_neo : ∀ n ∈ neos, n.approaches = [])
    (hinit_app : ∀ a ∈ apps, a.neo = none)
    (h : construct neos apps isList = Except.ok db) :
    (∀ j a, apps.get? j = some a →
       (∃ t n, neos.get? t = some n ∧ n.designation = a._designation ∧ a._designation ≠ "") →
       ∃ i n, lookupDes (buildIdx neos).2 a._designation = some i ∧
         db.apps.get? j = some { a with neo := some i } ∧
         db.neos.get? i = some n ∧ n.designation = a._designation ∧
         j ∈ n.approaches) ∧
    (∀ i n, db.neos.get? i = some n →
       n.approaches = appMatchedFrom (buildIdx neos).2 i 0 apps) ∧
    (∀ j a, apps.get? j = some a →
       lookupDes (buildIdx neos).2 a._designation = none →
       db.apps.get? j = some a ∧ a.neo = none ∧ j ∈ db._approaches) ∧
    (∀ j, j ∈ db._approaches ↔ j < apps.length) := by
  obtain ⟨hneos, happs, -, -, hperm, -, -, -⟩ := construct_ok neos apps isList db h
  have hmem : ∀ j, j ∈ db._approaches ↔ j < apps.length := by
    intro j
    rw [hperm.mem_iff, List.mem_range]
  refine ⟨?_, ?_, ?_, hmem⟩
  · intro j a hj hmatch
    rcases hmatch with ⟨t, n, ht, hd, hne⟩
    have hisSome := lastDesFrom_isSome_of_match neos 0 t n a._designation ht hd hne
    obtain ⟨i, hi⟩ := Option.isSome_iff_exists.mp hisSome
    have hlook : lookupDes (buildIdx neos).2 a._designation = some i := by
      rw [lookupDes_eq_dictGet, dictGet_buildIdx_des]
      exact hi
    have happj : db.apps.get? j = some { a with neo := some i } := by
      rw [happs, List.get?_map, hj]
      simp only [Option.map_some']
      rw [linkApp_hit _ _ _ hlook]
    rcases lastDesFrom_some neos 0 _ i hi with ⟨-, n0, hn0, hdes0, -⟩
    rw [Nat.sub_zero] at hn0
    have hneoi : db.neos.get? i = some { n0 with
        approaches := n0.approaches ++ appMatchedFrom (buildIdx neos).2 i 0 apps } := by
      rw [hneos, linkGo_fst_get?, hn0]
      rfl
    refine ⟨i, _, hlook, happj, hneoi, hdes0, ?_⟩
    show j ∈ n0.approaches ++ appMatchedFrom (buildIdx neos).2 i 0 apps
    rw [hinit_neo n0 (List.get?_mem hn0)]
    have := appMatchedFrom_mem apps (buildIdx neos).2 i 0 j a hj hlook
    simpa using this
  · intro i n hi
    rw [hneos, linkGo_fst_get?] at hi
    cases hn : neos.get? i with
    | none => rw [hn] at hi; cases hi
    | some n0 =>
      rw [hn] at hi
      have hn1 : n = { n0 with
          approaches := n0.approaches ++ appMatchedFrom (buildIdx neos).2 i 0 apps } :=
        (Option.some.inj hi).symm
      subst hn1
      show n0.approaches ++ appMatchedFrom (buildIdx neos).2 i 0 apps = _
      rw [hinit_neo n0 (List.get?_mem hn)]
      rfl
  · intro j a hj hmiss
    refine ⟨?_, hinit_app a (List.get?_mem hj), (hmem j).mpr (get?_lt_length hj)⟩
    rw [happs, List.get?_map, hj]
    simp only [Option.map_some']
    rw [linkApp_miss _ _ hmiss]

/-- Witness for C1 (amended), at one NEO with designation `433` and one
approach with the same join key: after construction the approach is linked
to that NEO and recorded in its `approaches`. -/
theorem C1_witness :
    ∃ i n, lookupDes (buildIdx [neoN]).2 appM._designation = some i ∧
      dbM.apps.get? 0 = some { appM with neo := some i } ∧
      dbM.neos.get? i = some n ∧ n.designation = appM._designation ∧
      0 ∈ n.approaches :=
  (C1_link_postcondition [neoN] [appM] true dbM (by decide) (by decide) rfl).1 0 appM rfl
    ⟨0, neoN, rfl, rfl, by decide⟩

/-- Counterexample to C1 as stated: the approach's join key (the empty
string) equals the designation of the only input NEO, linkage fields are
unset, and the constructor completes — yet the approach's `neo` reference
stays null and the NEO's `approaches` stays empty, because an empty (falsy)
designation is never indexed. -/
theorem C1_counterexample :
    appEmpty._designation = neoEmpty.designation ∧
    construct [neoEmpty] [appEmpty] false =
      Except.ok ⟨[neoEmpty], [appEmpty], [0], [], []⟩ ∧
    appEmpty.neo = none ∧
    neoEmpty.approaches = [] :=
  ⟨rfl, rfl, rfl, rfl⟩

/-- C5 (amended: the linking phase itself never raises and leaves an
unmatched approach with a null `neo` reference; but the constructor as a
whole completes only when the supplied approach collection is not a Python
`list` — then the canonical sort is skipped, the unmatched approach is kept
unchanged, and unfiltered `query()` yields it.  When the collection is a
`list`, the sort-key computation dereferences the null `neo` reference and
the constructor raises `AttributeError`). -/
theorem C5_unmatched_behavior (neos : List NearEarthObject) (apps : List CloseApproach)
    (j : Nat) (a : CloseApproach)
    (hget : apps.get? j = some a)
    (hneo : a.neo = none)
    (hmiss : lookupDes (buildIdx neos).2 a._designation = none) :
    (∃ db, construct neos apps false = Except.ok db ∧
       db.apps.get? j = some a ∧ j ∈ query db []) ∧
    construct neos apps true = Except.error "AttributeError" := by
  constructor
  · refine ⟨_, rfl, ?_, ?_⟩
    · show (linkGo (buildIdx neos).2 neos 0 apps).2.get? j = some a
      rw [linkGo_snd, List.get?_map, hget]
      simp only [Option.map_some']
      rw [linkApp_miss _ _ hmiss]
    · rw [query_nil]
      show j ∈ List.range (linkGo (buildIdx neos).2 neos 0 apps).2.length
      rw [linkGo_snd, List.length_map, List.mem_range]
      exact get?_lt_length hget
  · have hfalse : (linkGo (buildIdx neos).2 neos 0 apps).2.all
        (fun b => (sortKey (linkGo (buildIdx neos).2 neos 0 apps).1 b).isSome) = false := by
      rw [List.all_eq_false]
      refine ⟨a, ?_, ?_⟩
      · rw [linkGo_snd]
        have : linkApp (buildIdx neos).2 a = a := linkApp_miss _ _ hmiss
        rw [← this]
        exact List.mem_map_of_mem _ (List.get?_mem hget)
      · unfold sortKey
        rw [hneo]
        simp
    unfold construct
    simp only [if_true]
    rw [if_neg ?hc]
    case hc =>
      rw [hfalse]
      simp

/-- Witness for C5 (amended): one NEO `433` and one approach with the
unmatched join key `999`. -/
theorem C5_witness :
    (∃ db, construct [neoN] [appU] false = Except.ok db ∧
       db.apps.get? 0 = some appU ∧ 0 ∈ query db []) ∧
    construct [neoN] [appU] true = Except.error "AttributeError" :=
  C5_unmatched_behavior [neoN] [appU] 0 appU rfl rfl (by decide)

/-- Counterexample to C5 as stated: with the approach collection supplied
as a Python `list` (the normal case), an approach whose join key matches no
NEO makes the constructor raise `AttributeError` while computing the sort
key of the still-unlinked approach — construction does not complete. -/
theorem C5_counterexample :
    construct [neoN] [appU] true = Except.error "AttributeError" := by rfl

/-- C10: the constructor's only effects on the supplied objects are the
three linking mutations — each NEO's `approaches` gains exactly its matched
approach indices (in input order), each approach's `neo` reference is set
exactly on a designation hit (and untouched on a miss), and the supplied
approach collection is reordered in place (a permutation, nothing added or
dropped); every other field of every supplied NEO and approach is unchanged
by construction.  `query` is a pure read of the resulting state. -/
theorem C10_constructor_frame (neos : List NearEarthObject) (apps : List CloseApproach)
    (isList : Bool) (db : NEODatabase) (h : construct neos apps isList = Except.ok db) :
    db.neos.length = neos.length ∧
    db.apps.length = apps.length ∧
    (∀ i n0 n1, neos.get? i = some n0 → db.neos.get? i = some n1 →
       n1.designation = n0.designation ∧ n1.name = n0.name ∧
       n1.diameter = n0.diameter ∧ n1.hazardous = n0.hazardous ∧
       n1.approaches = n0.approaches ++ appMatchedFrom (buildIdx neos).2 i 0 apps) ∧
    (∀ j a0 a1, apps.get? j = some a0 → db.apps.get? j = some a1 →
       a1._designation = a0._designation ∧ a1.time = a0.time ∧
       a1.distance = a0.distance ∧ a1.velocity = a0.velocity ∧
       a1.neo = (match lookupDes (buildIdx neos).2 a0._designation with
                 | some i => some i
                 | none => a0.neo)) ∧
    db._approaches.Perm (List.range apps.length) := by
  obtain ⟨hneos, happs, -, -, hperm, -, -, -⟩ := construct_ok neos apps isList db h
  refine ⟨?_, ?_, ?_, ?_, hperm⟩
  · rw [hneos, linkGo_fst_length]
  · rw [happs, List.length_map]
  · intro i n0 n1 h0 h1
    rw [hneos, linkGo_fst_get?, h0] at h1
    simp only [Option.map_some'] at h1
    have hn1 : n1 = { n0 with
        approaches := n0.approaches ++ appMatchedFrom (buildIdx neos).2 i 0 apps } :=
      (Option.some.inj h1).symm
    subst hn1
    exact ⟨rfl, rfl, rfl, rfl, rfl⟩
  · intro j a0 a1 h0 h1
    rw [happs, List.get?_map, h0] at h1
    simp only [Option.map_some'] at h1
    have ha1 : a1 = linkApp (buildIdx neos).2 a0 := (Option.some.inj h1).symm
    subst ha1
    exact linkApp_fields (buildIdx neos).2 a0

/-- Witness for C10 on the one-NEO, one-matched-approach input: lengths are
preserved and the re-sorted approach collection is a permutation of the
input positions. -/
theorem C10_witness :
    dbM.neos.length = ([neoN] : List NearEarthObject).length ∧
    dbM._approaches.Perm (List.range ([appM] : List CloseApproach).length) :=
  ⟨(C10_constructor_frame [neoN] [appM] true dbM rfl).1,
   (C10_constructor_frame [neoN] [appM] true dbM rfl).2.2.2.2⟩
